import Mathlib

/-!
Verification of the email-automation pipeline of the sendemailauto repository.

Strings are modelled as lists of characters.  JavaScript string literals that
contain curly braces are written with the characters lb and rb below, so that
placeholder patterns such as the name placeholder are built explicitly.

The global regex replacement String.replace(new RegExp(lit, | g), value) for a
literal pattern lit is modelled by replAll: scan left to right, expand the
dollar escapes of the replacement value at each match (getSubstitution),
continue scanning after the substituted text.
-/
abbrev Str := List Char

/-- JS truthiness fallback for strings: v || d is d when v is the empty string. -/
def jsOr (v d : Str) : Str := if v = [] then d else v

/-- Left curly brace character. -/
def lb : Char := '\x7b'

/-- Right curly brace character. -/
def rb : Char := '\x7d'

/-- Does p occur at the start of s?  (Literal, character by character.) -/
def strStarts : Str → Str → Bool
  | [], _ => true
  | _ :: _, [] => false
  | a :: p, b :: s => a == b && strStarts p s

/-- Dollar character, the escape lead inside a JS replacement string. -/
def dollar : Char := '$'

/-- Backquote character. -/
def backq : Char := Char.ofNat 96

/-- Apostrophe character. -/
def squote : Char := Char.ofNat 39

/-- GetSubstitution of the JS String.replace for a replacement value: two
dollars collapse to one, dollar-ampersand inserts the matched text,
dollar-backquote the portion of the subject before the match,
dollar-apostrophe the portion after it; every other dollar sequence stays
literal, which covers the digit forms because the patterns this program
builds have no capture groups. -/
def getSubstitution (matched before after : Str) : Str → Str
  | [] => []
  | a :: rest =>
    if a = dollar then
      match rest with
      | [] => [a]
      | b :: rest2 =>
        if b = dollar then dollar :: getSubstitution matched before after rest2
        else if b = '&' then matched ++ getSubstitution matched before after rest2
        else if b = backq then before ++ getSubstitution matched before after rest2
        else if b = squote then after ++ getSubstitution matched before after rest2
        else a :: b :: getSubstitution matched before after rest2
    else a :: getSubstitution matched before after rest

/-- Fuel-driven worker for replAll; before is the part of the subject string
already scanned, which the dollar escapes of the replacement value refer to.
Fuel at least the length of s makes the result total and independent of the
exact fuel. -/
def replAllGo : Nat → Str → Str → Str → Str → Str
  | 0, _, _, _, s => s
  | _ + 1, _, _, _, [] => []
  | fuel + 1, p, v, before, c :: t =>
    if strStarts p (c :: t) then
      getSubstitution p before ((c :: t).drop p.length) v ++
        replAllGo fuel p v (before ++ p) ((c :: t).drop p.length)
    else c :: replAllGo fuel p v (before ++ [c]) t

/-- Global replacement of the literal pattern p by the replacement value v in
s, as done by the JavaScript global-regex replace on a literal pattern: scan
left to right, expand the dollar escapes of v at each match, continue
scanning after the substituted text. -/
def replAll (p v s : Str) : Str := replAllGo s.length p v [] s

/-- Does p occur anywhere inside s?  Mirrors scanning a string for a pattern
(JS String.includes for a literal needle). -/
def occursIn (p : Str) : Str → Bool
  | [] => strStarts p []
  | c :: t => strStarts p (c :: t) || occursIn p t

/-- Is the character c absent from the string l? -/
def charFree (c : Char) (l : Str) : Bool := l.all (fun a => !(a == c))

/-- Placeholder token for an identifier, two opening braces, the identifier,
two closing braces — the literal pattern the source builds for each key. -/
def pat (id : Str) : Str := lb :: lb :: (id ++ [rb, rb])

/-- A template seen as a sequence of segments: literal text or a placeholder. -/
inductive Seg where
  | lit (s : Str)
  | hole (id : Str)

/-- Text of one segment. -/
def flattenSeg : Seg → Str
  | .lit s => s
  | .hole id => lb :: lb :: (id ++ [rb, rb])

/-- Text of a segment list. -/
def flattenSegs : List Seg → Str
  | [] => []
  | sg :: rest => flattenSeg sg ++ flattenSegs rest

/-- Well-formed segment: literal text holds no opening brace, placeholder
identifiers hold no braces. -/
def wfSeg : Seg → Bool
  | .lit s => charFree lb s
  | .hole id => charFree lb id && charFree rb id

def wfSegs (segs : List Seg) : Bool := segs.all wfSeg

/-- One global replacement pass on the segment level: the placeholder tid
becomes the literal val, everything else is untouched. -/
def passSeg (tid val : Str) : Seg → Seg
  | .lit s => .lit s
  | .hole id => if id = tid then .lit val else .hole id

/-- True when the segment is not a placeholder with identifier tid. -/
def noHole (tid : Str) : Seg → Bool
  | .lit _ => true
  | .hole id => !(id == tid)

/-- Identifier of the name placeholder. -/
def idName : Str := "name".toList

/-- Identifier of the keyword placeholder. -/
def idKeyword : Str := "keyword".toList

/-- Identifier of the address placeholder. -/
def idAddress : Str := "address".toList

/-- Identifier of the website placeholder. -/
def idWebsite : Str := "website".toList

/-- Identifier of the email placeholder. -/
def idEmail : Str := "email".toList

/-- Identifier of the company placeholder. -/
def idCompany : Str := "company".toList

/-- Fallback salutation substituted for a missing name (Vietnamese for friend). -/
def viBan : Str := "Bạn".toList

/-- One recipient row as parsed from Sheet1 by getRecipientData.  The optional
allEmails field is set by the store for every recipient it returns; id is never
set by the store, so recipient.id or rowIndex always resolves to rowIndex. -/
structure Recipient where
  keyword : Str := []
  name : Str := []
  address : Str := []
  website : Str := []
  primaryEmail : Str := []
  status : Str := []
  additionalEmails : List Str := []
  allEmails : Option (List Str) := none
  rowIndex : Nat := 0
  deriving DecidableEq

/-- The replacement table of personalizeContent, in source order: placeholder
identifier paired with the substituted value.  A missing name falls back to
the salutation; the company placeholder reuses the name field. -/
def substPairs (r : Recipient) : List (Str × Str) :=
  [(idName, jsOr r.name viBan),
   (idKeyword, jsOr r.keyword []),
   (idAddress, jsOr r.address []),
   (idWebsite, jsOr r.website []),
   (idEmail, jsOr r.primaryEmail []),
   (idCompany, jsOr r.name [])]

/-- Apply a list of global placeholder replacements, in order. -/
def replList : List (Str × Str) → Str → Str
  | [], s => s
  | (tid, v) :: rest, s => replList rest (replAll (pat tid) v s)

/-- Apply a list of placeholder replacements on the segment level. -/
def passList : List (Str × Str) → List Seg → List Seg
  | [], segs => segs
  | (tid, v) :: rest, segs => passList rest (segs.map (passSeg tid v))

/-- The string-level personalization of personalizeContent applied to one
field: sequential global replacement of the six recognized placeholders. -/
def personalizeStr (r : Recipient) (s : Str) : Str := replList (substPairs r) s

/-- The same substitution described on the segment level. -/
def substSegs (r : Recipient) (segs : List Seg) : List Seg := passList (substPairs r) segs

/-- Rendered subject and content, as returned by personalizeContent. -/
structure Personalized where
  subject : Str
  content : Str

/-- The template object assembled by getEmailTemplate (defaults model the
object of the fallback branch, which carries no title or selection data). -/
structure Template where
  title : Option Str := none
  subject : Str := []
  content : Str := []
  selectedIndex : Option Nat := none
  totalOptions : Option Nat := none

/-- personalizeContent from googleSheetsService: substitutes the recognized
placeholders in subject and content with recipient data. -/
def personalizeContent (t : Template) (r : Recipient) : Personalized :=
  { subject := personalizeStr r t.subject, content := personalizeStr r t.content }

/-- The recognized placeholder identifiers, in replacement order. -/
def recognizedIds : List Str := [idName, idKeyword, idAddress, idWebsite, idEmail, idCompany]

/-- Status string sent. -/
def strSent : Str := "sent".toList

/-- Status string failed. -/
def strFailed : Str := "failed".toList

/-- Status string completed. -/
def strCompleted : Str := "completed".toList

/-- Informational message of the empty-recipient early return. -/
def msgNoEmails : Str := "No emails to send".toList

/-- Error message thrown when a run is already in progress. -/
def errInProgress : Str := "Email processing already in progress".toList

/-- Error message thrown when the fetched template has empty subject or content. -/
def errInvalidTemplate : Str := "Invalid email template".toList

/-- Error message thrown inside sendEmail when the transport is not ready. -/
def errNotAuth : Str := "Gmail service not authenticated".toList

/-- Identifier of the primaryEmail recipient key. -/
def idPrimaryEmail : Str := "primaryEmail".toList

/-- Identifier of the status recipient key. -/
def idStatus : Str := "status".toList

/-- Identifier of the additionalEmails recipient key. -/
def idAdditionalEmails : Str := "additionalEmails".toList

/-- Identifier of the rowIndex recipient key. -/
def idRowIndex : Str := "rowIndex".toList

/-- Identifier of the allEmails recipient key. -/
def idAllEmails : Str := "allEmails".toList

/-- Decimal rendering of a number, as JS string coercion produces. -/
def natStr (n : Nat) : Str := (Nat.repr n).toList

/-- JS String(array): elements joined with a comma. -/
def joinComma : List Str → Str
  | [] => []
  | [x] => x
  | x :: xs => x ++ ',' :: joinComma xs

/-- ASCII lowercasing, the fragment of JS toLowerCase the header texts use. -/
def jsToLower (c : Char) : Char :=
  if 'A' ≤ c ∧ c ≤ 'Z' then Char.ofNat (c.toNat + 32) else c

/-- Lowercase a string character by character. -/
def lowerStr (s : Str) : Str := s.map jsToLower

/-- Cell i of a spreadsheet row; a missing cell reads as the empty string,
matching the falsiness of undefined in the source checks. -/
def cellAt (row : List Str) (i : Nat) : Str := row.getD i []

/-- Header needle title. -/
def hdrTitle : Str := "title".toList

/-- Header needle in Vietnamese. -/
def hdrTieuDe : Str := "tiêu đề".toList

/-- Header needle subject. -/
def hdrSubject : Str := "subject".toList

/-- The check getEmailTemplate applies to row 0 to skip a header row. -/
def isHeaderRow (row : List Str) : Bool :=
  occursIn hdrTitle (lowerStr (cellAt row 0)) ||
  occursIn hdrTieuDe (lowerStr (cellAt row 0)) ||
  occursIn hdrSubject (lowerStr (cellAt row 1))

/-- A template row is kept when it has at least two cells and both the title
and the subject cell are truthy (non-empty). -/
def validTemplateRow (row : List Str) : Bool :=
  decide (2 ≤ row.length) && !(cellAt row 0).isEmpty && !(cellAt row 1).isEmpty

/-- The filter getEmailTemplate applies to the Sheet2 rows: row 0 is dropped
when it looks like a header, every kept row must be valid. -/
def validRows (rows : List (List Str)) : List (List Str) :=
  match rows with
  | [] => []
  | r0 :: rest =>
    (if isHeaderRow r0 then [] else if validTemplateRow r0 then [r0] else []) ++
      rest.filter validTemplateRow

/-- JS whitespace test for the characters String.trim strips here. -/
def isWS (c : Char) : Bool := c == ' ' || c == '\t' || c == '\n' || c == '\r'

/-- String.trim: strip whitespace from both ends. -/
def trimStr (s : Str) : Str := ((s.dropWhile isWS).reverse.dropWhile isWS).reverse

/-- The fallback template returned when Sheet2 is empty or has no valid rows. -/
def defaultTemplate : Template :=
  { subject := "Default Subject".toList, content := "Default email content".toList }

/-- getEmailTemplate from googleSheetsService.  The rows are the Sheet2 data;
pick stands for the random index Math.floor(Math.random() times the number of
valid rows), which is below the number of valid rows whenever it is used.
Both subject and content copy the trimmed column B cell of the selected row. -/
def getEmailTemplate (rows : List (List Str)) (pick : Nat) : Template :=
  if rows.isEmpty then defaultTemplate
  else
    let vr := validRows rows
    if vr.isEmpty then defaultTemplate
    else
      let row := vr.getD pick []
      { title := some (trimStr (cellAt row 0)),
        subject := trimStr (cellAt row 1),
        content := trimStr (cellAt row 1),
        selectedIndex := some pick,
        totalOptions := some vr.length }

/-- The variables object handed to processEmailTemplate for one recipient:
Object.keys of the store-built recipient record in insertion order, values
stringified the way String.replace coerces them; a zero rowIndex is falsy and
collapses to the empty string through the value-or-empty fallback. -/
def recipientVars (r : Recipient) : List (Str × Str) :=
  [(idKeyword, r.keyword), (idName, r.name), (idAddress, r.address), (idWebsite, r.website),
   (idPrimaryEmail, r.primaryEmail), (idStatus, r.status),
   (idAdditionalEmails, joinComma r.additionalEmails),
   (idRowIndex, if r.rowIndex = 0 then [] else natStr r.rowIndex)] ++
  (match r.allEmails with
   | some l => [(idAllEmails, joinComma l)]
   | none => [])

/-- processEmailTemplate from gmailService: replace each brace-wrapped key by
its value, in key order.  The value-or-empty fallback of the source is the
identity on the pre-stringified values, see jsOr_nil below. -/
def processEmailTemplate (tmpl : Str) (vars : List (Str × Str)) : Str :=
  replList vars tmpl

/-- One prepared outgoing email.  The html and text fields of the source are
presentation variants of the content (formatEmailContent, htmlToText) and a
tracking pixel only added when recipient.id exists, which the store never
sets; no claim refers to them, so they are not carried here.  recipientId is
recipient.id or rowIndex, and id is never set, hence rowIndex. -/
structure Email where
  «to» : List Str
  subject : Str
  recipientId : Nat

/-- prepareEmailBatch from gmailService, on the fields the claims concern. -/
def prepareEmailBatch (recipients : List Recipient) (t : Template) : List Email :=
  recipients.map (fun r =>
    { «to» := r.allEmails.getD [r.primaryEmail],
      subject := processEmailTemplate t.subject (recipientVars r),
      recipientId := r.rowIndex })

/-- What one transport call returns to sendEmailsWithRetry. -/
structure TransportRet where
  success : Bool
  messageId : Option Str := none
  error : Option Str := none

/-- A transport invocation either returns a result object or throws. -/
inductive CallResult where
  | ret (r : TransportRet)
  | exn (msg : Str)

/-- Does this call outcome count as a failure in the retry loop? -/
def callFails : CallResult → Bool
  | .ret r => !r.success
  | .exn _ => true

/-- The error recorded for this outcome (result.error, or the thrown message). -/
def errOf : CallResult → Option Str
  | .ret r => r.error
  | .exn m => some m

/-- The message id of this outcome when it is a returned result. -/
def midOf : CallResult → Option Str
  | .ret r => r.messageId
  | .exn _ => none

/-- Outcome of the per-recipient attempt loop, instrumented with the times at
which transport calls happen and the backoff delays taken (milliseconds). -/
structure AttemptOut where
  sentAttempt : Option Nat
  messageId : Option Str
  lastError : Option Str
  callTimes : List Nat
  backoffs : List Nat
  endTime : Nat

/-- The attempt loop of sendEmailsWithRetry for one email: at most the given
remaining attempts; a success stops the loop; a failure records the error and,
when attempts remain, waits two to the attempt number seconds before retrying;
no backoff follows the last failure. -/
def runAttemptsAux (call : Nat → CallResult) : Nat → Nat → Option Str → Nat → AttemptOut
  | _, 0, le, now =>
    { sentAttempt := none, messageId := none, lastError := le,
      callTimes := [], backoffs := [], endTime := now }
  | attempt, r + 1, le, now =>
    match call attempt with
    | .ret res =>
      if res.success then
        { sentAttempt := some attempt, messageId := res.messageId, lastError := le,
          callTimes := [now], backoffs := [], endTime := now }
      else
        if r = 0 then
          { sentAttempt := none, messageId := none, lastError := res.error,
            callTimes := [now], backoffs := [], endTime := now }
        else
          let d := 2 ^ attempt * 1000
          let rest := runAttemptsAux call (attempt + 1) r res.error (now + d)
          { rest with callTimes := now :: rest.callTimes, backoffs := d :: rest.backoffs }
    | .exn m =>
      if r = 0 then
        { sentAttempt := none, messageId := none, lastError := some m,
          callTimes := [now], backoffs := [], endTime := now }
      else
        let d := 2 ^ attempt * 1000
        let rest := runAttemptsAux call (attempt + 1) r (some m) (now + d)
        { rest with callTimes := now :: rest.callTimes, backoffs := d :: rest.backoffs }

/-- The attempt loop started at attempt one with no recorded error. -/
def runAttempts (call : Nat → CallResult) (maxRetries now : Nat) : AttemptOut :=
  runAttemptsAux call 1 maxRetries none now

/-- One entry of the details list; fields absent on the JS object are none.
A success entry carries messageId and attempt, a failure entry carries the
last error and the attempts count. -/
structure Detail where
  recipientId : Nat
  email : List Str
  status : Str
  messageId : Option Str := none
  attempt : Option Nat := none
  error : Option Str := none
  attempts : Option Nat := none

/-- The details entry pushed for one email after its attempt loop. -/
def mkDetail (e : Email) (maxRetries : Nat) (a : AttemptOut) : Detail :=
  match a.sentAttempt with
  | some att =>
    { recipientId := e.recipientId, email := e.«to», status := strSent,
      messageId := a.messageId, attempt := some att }
  | none =>
    { recipientId := e.recipientId, email := e.«to», status := strFailed,
      error := a.lastError, attempts := some maxRetries }

/-- waitForRateLimit from gmailService: given the minimum gap, the current
time and the recorded last-send time, return the sleep taken and the new
recorded last-send time (the clock after the sleep). -/
def waitForRateLimit (minGap now lastSent : Nat) : Nat × Nat :=
  let since := now - lastSent
  if since < minGap then (minGap - since, now + (minGap - since)) else (0, now)

/-- Aggregate outcome of sendEmailsWithRetry, instrumented with transport call
times, backoff delays and rate-limit sleeps. -/
structure RunOut where
  sent : Nat
  failed : Nat
  details : List Detail
  callTimes : List Nat
  backoffs : List Nat
  sleeps : List Nat
  endTime : Nat
  lastSentEnd : Nat

/-- sendEmailsWithRetry from the email service: for each email in order, run
the attempt loop, push exactly one details entry, then apply the rate limit
regardless of the outcome.  call idx attempt is the transport outcome for the
given email index and attempt number; time is a millisecond clock advanced by
the delays the code takes. -/
def sendEmailsWithRetry (call : Nat → Nat → CallResult) (minGap maxRetries : Nat) :
    Nat → Nat → Nat → List Email → RunOut
  | _, now, lastSent, [] =>
    { sent := 0, failed := 0, details := [], callTimes := [], backoffs := [], sleeps := [],
      endTime := now, lastSentEnd := lastSent }
  | idx, now, lastSent, e :: rest =>
    let a := runAttempts (call idx) maxRetries now
    let d := mkDetail e maxRetries a
    let w := waitForRateLimit minGap a.endTime lastSent
    let r := sendEmailsWithRetry call minGap maxRetries (idx + 1) (a.endTime + w.1) w.2 rest
    { sent := (if a.sentAttempt.isSome then 1 else 0) + r.sent,
      failed := (if a.sentAttempt.isSome then 0 else 1) + r.failed,
      details := d :: r.details,
      callTimes := a.callTimes ++ r.callTimes,
      backoffs := a.backoffs ++ r.backoffs,
      sleeps := w.1 :: r.sleeps,
      endTime := r.endTime,
      lastSentEnd := r.lastSentEnd }

/-- What the nodemailer sendMail resolves to on success. -/
structure MailInfo where
  messageId : Str := []
  response : Str := []

/-- The object sendEmail returns to its caller. -/
structure SendRes where
  success : Bool
  messageId : Option Str := none
  response : Option Str := none
  error : Option Str := none

/-- The body of sendEmail before its catch: throws (error branch) when the
service is not authenticated or has no transporter, throws when the transport
delivery rejects, and otherwise builds the success object. -/
def sendEmailBody (authenticated hasTransporter : Bool)
    (deliver : Except Str MailInfo) : Except Str SendRes :=
  if !authenticated || !hasTransporter then
    .error errNotAuth
  else
    match deliver with
    | .ok info =>
      .ok { success := true, messageId := some info.messageId,
            response := some info.response }
    | .error e => .error e

/-- sendEmail from services/gmailService: the whole body sits in a try/catch
whose catch converts any thrown error into a failure result object. -/
def sendEmail (authenticated hasTransporter : Bool)
    (deliver : Except Str MailInfo) : SendRes :=
  match sendEmailBody authenticated hasTransporter deliver with
  | .ok r => r
  | .error e => { success := false, error := some e }

/-- The call as the caller observes it: an error value would be a rejection of
the async function; the catch turns every internal throw into a resolution. -/
def sendEmailAsCall (authenticated hasTransporter : Bool)
    (deliver : Except Str MailInfo) : Except Str SendRes :=
  match sendEmailBody authenticated hasTransporter deliver with
  | .ok r => .ok r
  | .error e => .ok { success := false, error := some e }

/-- Did the computation resolve rather than reject? -/
def exceptOk {ε α : Type} : Except ε α → Bool
  | .ok _ => true
  | .error _ => false

/-- getUnprocessedRecipients: drop every recipient whose status is sent,
failed or completed. -/
def getUnprocessedRecipients (recips : List Recipient) : List Recipient :=
  recips.filter (fun r =>
    !(r.status == strSent) && !(r.status == strFailed) && !(r.status == strCompleted))

/-- The object processEmails resolves with.  The early empty-recipients return
carries a message and no total field; the normal return carries a total and no
message; the total field being none models the absent JS property. -/
structure RunResult where
  sent : Nat
  failed : Nat
  total : Option Nat
  message : Option Str
  details : List Detail

/-- Observable outcome of one processEmails call: the resolution or rejection,
the value the processing flag holds while the body runs, the value it holds
after the finally block, and the instrumented send trace. -/
structure PipeOut where
  result : Except Str RunResult
  processingDuring : Bool
  processingAfter : Bool
  trace : RunOut

/-- The empty trace of a run that never reaches the send loop. -/
def emptyRun (now lastSent : Nat) : RunOut :=
  { sent := 0, failed := 0, details := [], callTimes := [], backoffs := [], sleeps := [],
    endTime := now, lastSentEnd := lastSent }

/-- processEmails from the email service.  The store reads are modelled by
their data: storeRecipients is what getRecipientData yields, tmplRows and pick
feed getEmailTemplate.  The concurrent-run guard runs before the flag is set,
so a rejected second call leaves the flag of the first run in place; every
path that enters the try clears the flag in the finally block.  The
best-effort per-recipient persistence (logEmailResult, updateRecipientStatus)
catches its own errors and changes no observable field of the result, so it
adds nothing to this state.  maxRetries is the source default three. -/
def processEmails (processing : Bool) (storeRecipients : List Recipient)
    (tmplRows : List (List Str)) (pick : Nat) (call : Nat → Nat → CallResult)
    (minGap now0 lastSent0 : Nat) : PipeOut :=
  if processing then
    { result := .error errInProgress, processingDuring := true, processingAfter := true,
      trace := emptyRun now0 lastSent0 }
  else
    let unsent := getUnprocessedRecipients storeRecipients
    if unsent.isEmpty then
      { result := .ok { sent := 0, failed := 0, total := none,
                          message := some msgNoEmails, details := [] },
        processingDuring := true, processingAfter := false,
        trace := emptyRun now0 lastSent0 }
    else
      let t := getEmailTemplate tmplRows pick
      if t.subject.isEmpty || t.content.isEmpty then
        { result := .error errInvalidTemplate, processingDuring := true,
          processingAfter := false, trace := emptyRun now0 lastSent0 }
      else
        let emails := prepareEmailBatch unsent t
        let out := sendEmailsWithRetry call minGap 3 0 now0 lastSent0 emails
        { result := .ok { sent := out.sent, failed := out.failed,
                            total := some emails.length, message := none,
                            details := out.details },
          processingDuring := true, processingAfter := false, trace := out }

/-- The total field of a resolved result, none when the call rejected. -/
def okTotal : Except Str RunResult → Option (Option Nat)
  | .ok r => some r.total
  | .error _ => none

/-- Scheduler state of CronJobManager: the active flag, the interval in
minutes, the trigger handle, the next-run estimate in epoch milliseconds. -/
structure CronState where
  active : Bool := false
  interval : Nat := 30
  currentJob : Option Unit := none
  nextRunTime : Option Nat := none

/-- The state built by the constructor. -/
def cronInit : CronState := {}

/-- start(intervalMinutes): refuse when already active; otherwise record the
interval, register and start the trigger, set the next-run estimate. -/
def cronStart (now n : Nat) (s : CronState) : CronState × Bool :=
  if s.active then (s, false)
  else
    ({ active := true, interval := n, currentJob := some (),
       nextRunTime := some (now + n * 60 * 1000) }, true)

/-- stop(): refuse when inactive or without a trigger; otherwise release the
trigger and clear the estimate. -/
def cronStop (s : CronState) : CronState × Bool :=
  if !s.active || s.currentJob.isNone then (s, false)
  else ({ s with active := false, currentJob := none, nextRunTime := none }, true)

/-- updateInterval(n): when inactive just record the interval; when active,
stop then start with the new interval. -/
def cronUpdateInterval (now n : Nat) (s : CronState) : CronState × Bool :=
  if !s.active then ({ s with interval := n }, true)
  else cronStart now n (cronStop s).1

/-- States reachable from the constructor state through the three control
operations. -/
inductive CronReach : CronState → Prop where
  | init : CronReach cronInit
  | start (now n : Nat) {s : CronState} : CronReach s → CronReach (cronStart now n s).1
  | stop {s : CronState} : CronReach s → CronReach (cronStop s).1
  | upd (now n : Nat) {s : CronState} : CronReach s → CronReach (cronUpdateInterval now n s).1

/-- Recipient used by the concrete counterexample runs. -/
def c1recipient : Recipient :=
  { name := ("A".toList), primaryEmail := ("a@b.c".toList), status := ("new".toList),
    allEmails := some [("a@b.c".toList)], rowIndex := 2 }

/-- Transport stub that always succeeds. -/
def c1okCall : Nat → Nat → CallResult :=
  fun _ _ => .ret { success := true, messageId := some ("m".toList) }

/-- Template sheet whose only row has a whitespace-only subject cell: the row
is truthy, hence valid, but trims to an empty subject. -/
def c1wsRows : List (List Str) := [[("t".toList), (" ".toList)]]

/-- Recipient with an empty name used by the personalization counterexample. -/
def c4recipient : Recipient := { primaryEmail := ("x@y.z".toList), rowIndex := 2 }

/-- Template whose subject is exactly the name placeholder. -/
def c4template : Template :=
  { subject := flattenSegs [Seg.hole idName], content := flattenSegs [Seg.hole idName] }

/-- Concrete segment template of the personalization witness. -/
def c4segsW : List Seg :=
  [Seg.lit ("Hi ".toList), Seg.hole idName, Seg.lit (", see ".toList),
   Seg.hole ("unknown".toList)]

/-- Concrete recipient of the personalization witness. -/
def c4recipW : Recipient :=
  { name := ("Ana".toList), keyword := ("garden".toList),
    primaryEmail := ("ana@e.vn".toList), rowIndex := 2 }

/-- Transport stub that always throws. -/
def c3failCall : Nat → Nat → CallResult := fun _ _ => .exn ("boom".toList)

/-- Transport stub that throws on the first attempt and succeeds on later ones. -/
def c3flakyCall : Nat → Nat → CallResult :=
  fun _ a => if a = 1 then .exn ("boom".toList)
    else .ret { success := true, messageId := some ("m2".toList) }

/-- Concrete prepared email of the retry witnesses. -/
def c3email : Email := { «to» := [("a@b.c".toList)], subject := [], recipientId := 2 }

/-- Concrete template sheet with one valid row. -/
def c10rowsW : List (List Str) := [[("Intro".toList), ("Hello there".toList)]]
lemma charFree_iff {c : Char} {l : Str} : charFree c l = true ↔ ∀ a ∈ l, a ≠ c := by
  simp [charFree, List.all_eq_true]

lemma getSubstitution_dollarFree (matched before after : Str) :
    ∀ v : Str, charFree dollar v = true →
      getSubstitution matched before after v = v := by
  intro v
  induction v with
  | nil => intro _; rfl
  | cons a rest ih =>
    intro h
    have ha : a ≠ dollar := (charFree_iff.mp h) a (List.mem_cons_self _ _)
    have hrest : charFree dollar rest = true := by
      refine charFree_iff.mpr ?_
      intro c hc
      exact (charFree_iff.mp h) c (List.mem_cons_of_mem a hc)
    rw [getSubstitution.eq_def]
    simp only [if_neg ha]
    rw [ih hrest]

lemma replAllGo_congr {p v : Str} (hp : p ≠ []) (hv : charFree dollar v = true) :
    ∀ f1 f2 b1 b2 s, s.length ≤ f1 → s.length ≤ f2 →
      replAllGo f1 p v b1 s = replAllGo f2 p v b2 s := by
  intro f1
  induction f1 with
  | zero =>
    intro f2 b1 b2 s hs1 _
    have hs : s = [] := List.eq_nil_of_length_eq_zero (Nat.le_zero.mp hs1)
    subst hs
    cases f2 <;> rfl
  | succ n ih =>
    intro f2 b1 b2 s hs1 hs2
    cases s with
    | nil => cases f2 <;> rfl
    | cons c t =>
      cases f2 with
      | zero => simp at hs2
      | succ m =>
        have hplen : 1 ≤ p.length := by
          cases p with
          | nil => exact absurd rfl hp
          | cons a q => simp
        simp only [replAllGo]
        by_cases hst : strStarts p (c :: t) = true
        · rw [if_pos hst, if_pos hst]
          rw [getSubstitution_dollarFree p b1 ((c :: t).drop p.length) v hv,
            getSubstitution_dollarFree p b2 ((c :: t).drop p.length) v hv]
          have h1 : ((c :: t).drop p.length).length ≤ n := by
            have ht : t.length ≤ n := by simpa using hs1
            simp only [List.length_drop, List.length_cons]
            omega
          have h2 : ((c :: t).drop p.length).length ≤ m := by
            have ht : t.length ≤ m := by simpa using hs2
            simp only [List.length_drop, List.length_cons]
            omega
          rw [ih m (b1 ++ p) (b2 ++ p) _ h1 h2]
        · rw [if_neg hst, if_neg hst]
          have h1 : t.length ≤ n := by simpa using hs1
          have h2 : t.length ≤ m := by simpa using hs2
          rw [ih m (b1 ++ [c]) (b2 ++ [c]) t h1 h2]

lemma replAll_nil (p v : Str) : replAll p v [] = [] := rfl

lemma replAll_pos {p : Str} (hp : p ≠ []) {c : Char} {t : Str} (v : Str)
    (hv : charFree dollar v = true) (h : strStarts p (c :: t) = true) :
    replAll p v (c :: t) = v ++ replAll p v ((c :: t).drop p.length) := by
  have hplen : 1 ≤ p.length := by
    cases p with
    | nil => exact absurd rfl hp
    | cons a q => simp
  simp only [replAll, List.length_cons, replAllGo, if_pos h]
  rw [getSubstitution_dollarFree p [] ((c :: t).drop p.length) v hv]
  congr 1
  apply replAllGo_congr hp hv
  · simp only [List.length_drop, List.length_cons]; omega
  · exact Nat.le_refl _

lemma replAll_neg {p : Str} {c : Char} {t : Str} (v : Str)
    (hv : charFree dollar v = true) (h : strStarts p (c :: t) = false) :
    replAll p v (c :: t) = c :: replAll p v t := by
  by_cases hp : p = []
  · subst hp
    simp [strStarts] at h
  · simp only [replAll, List.length_cons, replAllGo, h]
    rw [if_neg Bool.false_ne_true]
    congr 1
    exact replAllGo_congr hp hv t.length t.length ([] ++ [c]) [] t
      (Nat.le_refl _) (Nat.le_refl _)

lemma strStarts_self_append : ∀ (p r : Str), strStarts p (p ++ r) = true := by
  intro p
  induction p with
  | nil => intro r; rfl
  | cons a q ih => intro r; simp [strStarts, ih]

lemma replAll_self_append {p : Str} (hp : p ≠ []) (v r : Str)
    (hv : charFree dollar v = true) :
    replAll p v (p ++ r) = v ++ replAll p v r := by
  cases p with
  | nil => exact absurd rfl hp
  | cons a q =>
    have h := replAll_pos (p := a :: q) hp (c := a) (t := q ++ r) v hv
      (by simpa using strStarts_self_append (a :: q) r)
    simpa [List.drop_left] using h

lemma strStarts_lb_cons {q : Str} {c : Char} {t : Str} (hc : c ≠ lb) :
    strStarts (lb :: q) (c :: t) = false := by
  have hbe : (lb == c) = false := by
    rw [beq_eq_false_iff_ne]
    exact fun h => hc h.symm
  simp [strStarts, hbe]

lemma replAll_skip {q : Str} (v : Str) (hv : charFree dollar v = true) :
    ∀ (l r : Str), (∀ c ∈ l, c ≠ lb) →
      replAll (lb :: q) v (l ++ r) = l ++ replAll (lb :: q) v r := by
  intro l
  induction l with
  | nil => intro r _; simp
  | cons c l' ih =>
    intro r hl
    have hc : c ≠ lb := hl c (List.mem_cons_self c l')
    have hstep := replAll_neg (p := lb :: q) (c := c) (t := l' ++ r) v hv
      (strStarts_lb_cons hc)
    rw [List.cons_append, hstep, ih r (fun d hd => hl d (List.mem_cons_of_mem c hd))]
    rfl

lemma occursIn_skip {q : Str} :
    ∀ (l r : Str), (∀ c ∈ l, c ≠ lb) →
      occursIn (lb :: q) (l ++ r) = occursIn (lb :: q) r := by
  intro l
  induction l with
  | nil => intro r _; simp
  | cons c l' ih =>
    intro r hl
    have hc : c ≠ lb := hl c (List.mem_cons_self c l')
    simp only [List.cons_append, occursIn, strStarts_lb_cons hc, Bool.false_or]
    exact ih r (fun d hd => hl d (List.mem_cons_of_mem c hd))

lemma pat_ne_nil (id : Str) : pat id ≠ [] := by simp [pat]

lemma strStarts_ne_tok :
    ∀ (tid id : Str), (∀ c ∈ tid, c ≠ rb) → (∀ c ∈ id, c ≠ rb) → tid ≠ id →
      ∀ (u w : Str), strStarts (tid ++ rb :: u) (id ++ rb :: w) = false := by
  intro tid
  induction tid with
  | nil =>
    intro id _ hid hne u w
    cases id with
    | nil => exact absurd rfl hne
    | cons b id' =>
      have hb : b ≠ rb := hid b (List.mem_cons_self b id')
      have hbe : (rb == b) = false := by
        rw [beq_eq_false_iff_ne]; exact fun h => hb h.symm
      simp [strStarts, hbe]
  | cons a tid' ih =>
    intro id htid hid hne u w
    cases id with
    | nil =>
      have ha : a ≠ rb := htid a (List.mem_cons_self a tid')
      have hbe : (a == rb) = false := by rw [beq_eq_false_iff_ne]; exact ha
      simp [strStarts, hbe]
    | cons b id' =>
      by_cases hab : a = b
      · subst hab
        have h1 : ∀ c ∈ tid', c ≠ rb := fun c hc => htid c (List.mem_cons_of_mem a hc)
        have h2 : ∀ c ∈ id', c ≠ rb := fun c hc => hid c (List.mem_cons_of_mem a hc)
        have h3 : tid' ≠ id' := fun h => hne (by rw [h])
        simp [strStarts, ih id' h1 h2 h3 u w]
      · have hbe : (a == b) = false := by rw [beq_eq_false_iff_ne]; exact hab
        simp [strStarts, hbe]

lemma strStarts_pat_hole {tid id : Str} (htid : ∀ c ∈ tid, c ≠ rb)
    (hid : ∀ c ∈ id, c ≠ rb) (hne : tid ≠ id) (r : Str) :
    strStarts (pat tid) (lb :: lb :: (id ++ rb :: rb :: r)) = false := by
  have h := strStarts_ne_tok tid id htid hid hne [rb] (rb :: r)
  simpa [pat, strStarts] using h

lemma strStarts_pat_tail {tid : Str} {id : Str} (hidl : ∀ c ∈ id, c ≠ lb) (r : Str) :
    strStarts (pat tid) (lb :: (id ++ rb :: rb :: r)) = false := by
  cases id with
  | nil =>
    have hbe : (lb == rb) = false := by decide
    simp [pat, strStarts, hbe]
  | cons c id' =>
    have hc : c ≠ lb := hidl c (List.mem_cons_self c id')
    have hbe : (lb == c) = false := by
      rw [beq_eq_false_iff_ne]; exact fun h => hc h.symm
    simp [pat, strStarts, hbe]

lemma replAll_hole {tid id : Str} (v : Str) (hv : charFree dollar v = true)
    (htid : ∀ c ∈ tid, c ≠ rb)
    (hidr : ∀ c ∈ id, c ≠ rb) (hidl : ∀ c ∈ id, c ≠ lb) (hne : tid ≠ id) (r : Str) :
    replAll (pat tid) v (lb :: lb :: (id ++ rb :: rb :: r)) =
      lb :: lb :: (id ++ rb :: rb :: replAll (pat tid) v r) := by
  rw [replAll_neg v hv (strStarts_pat_hole htid hidr hne r)]
  rw [replAll_neg v hv (strStarts_pat_tail hidl r)]
  have hfree : ∀ c ∈ id ++ [rb, rb], c ≠ lb := by
    intro c hc
    rcases List.mem_append.mp hc with h | h
    · exact hidl c h
    · have : c = rb := by simpa using h
      subst this; decide
  have hskip := replAll_skip (q := lb :: (tid ++ [rb, rb])) v hv (id ++ [rb, rb]) r hfree
  have happ : (id ++ [rb, rb]) ++ r = id ++ rb :: rb :: r := by simp
  rw [happ] at hskip
  have hpat : pat tid = lb :: (lb :: (tid ++ [rb, rb])) := rfl
  rw [hpat, hskip]
  simp

lemma occursIn_pat_nil (tid : Str) : occursIn (pat tid) [] = false := by
  simp [occursIn, pat, strStarts]

lemma occursIn_hole {tid id : Str} (htid : ∀ c ∈ tid, c ≠ rb)
    (hidr : ∀ c ∈ id, c ≠ rb) (hidl : ∀ c ∈ id, c ≠ lb) (hne : tid ≠ id) (r : Str) :
    occursIn (pat tid) (lb :: lb :: (id ++ rb :: rb :: r)) = occursIn (pat tid) r := by
  simp only [occursIn, strStarts_pat_hole htid hidr hne, strStarts_pat_tail hidl,
    Bool.false_or]
  have hfree : ∀ c ∈ id ++ [rb, rb], c ≠ lb := by
    intro c hc
    rcases List.mem_append.mp hc with h | h
    · exact hidl c h
    · have : c = rb := by simpa using h
      subst this; decide
  have hskip := occursIn_skip (q := lb :: (tid ++ [rb, rb])) (id ++ [rb, rb]) r hfree
  have happ : (id ++ [rb, rb]) ++ r = id ++ rb :: rb :: r := by simp
  rw [happ] at hskip
  have hpat : pat tid = lb :: (lb :: (tid ++ [rb, rb])) := rfl
  rw [hpat, hskip]

lemma passSegs_eq {tid : Str} (htid : ∀ c ∈ tid, c ≠ rb) (v : Str)
    (hv : charFree dollar v = true) :
    ∀ segs, wfSegs segs = true →
      replAll (pat tid) v (flattenSegs segs) = flattenSegs (segs.map (passSeg tid v)) := by
  intro segs
  induction segs with
  | nil => intro _; simp [flattenSegs, replAll_nil]
  | cons sg rest ih =>
    intro hwf
    have hsg : wfSeg sg = true := by
      have := (List.all_eq_true.mp hwf) sg (List.mem_cons_self sg rest)
      exact this
    have hrest : wfSegs rest = true := by
      refine List.all_eq_true.mpr ?_
      intro x hx
      exact (List.all_eq_true.mp hwf) x (List.mem_cons_of_mem sg hx)
    cases sg with
    | lit s =>
      have hfree : ∀ c ∈ s, c ≠ lb := charFree_iff.mp hsg
      have hpat : pat tid = lb :: (lb :: (tid ++ [rb, rb])) := rfl
      show replAll (pat tid) v (s ++ flattenSegs rest) = _
      rw [hpat, replAll_skip v hv s (flattenSegs rest) hfree, ← hpat, ih hrest]
      simp [passSeg, flattenSegs, flattenSeg]
    | hole id =>
      by_cases hide : id = tid
      · subst hide
        show replAll (pat id) v (pat id ++ flattenSegs rest) = _
        rw [replAll_self_append (pat_ne_nil id) v (flattenSegs rest) hv, ih hrest]
        simp [passSeg, flattenSegs, flattenSeg]
      · have hidl : ∀ c ∈ id, c ≠ lb := charFree_iff.mp (by
          have := hsg
          simp [wfSeg, Bool.and_eq_true] at this
          exact this.1)
        have hidr : ∀ c ∈ id, c ≠ rb := charFree_iff.mp (by
          have := hsg
          simp [wfSeg, Bool.and_eq_true] at this
          exact this.2)
        have hflat : flattenSegs (Seg.hole id :: rest) =
            lb :: lb :: (id ++ rb :: rb :: flattenSegs rest) := by
          simp [flattenSegs, flattenSeg]
        rw [hflat,
          replAll_hole v hv htid hidr hidl (fun h => hide h.symm) (flattenSegs rest),
          ih hrest]
        simp [passSeg, hide, flattenSegs, flattenSeg]

lemma occursFree {tid : Str} (htid : ∀ c ∈ tid, c ≠ rb) :
    ∀ segs, wfSegs segs = true → segs.all (noHole tid) = true →
      occursIn (pat tid) (flattenSegs segs) = false := by
  intro segs
  induction segs with
  | nil => intro _ _; exact occursIn_pat_nil tid
  | cons sg rest ih =>
    intro hwf hnh
    have hsg : wfSeg sg = true := (List.all_eq_true.mp hwf) sg (List.mem_cons_self sg rest)
    have hsgn : noHole tid sg = true := (List.all_eq_true.mp hnh) sg (List.mem_cons_self sg rest)
    have hrest : wfSegs rest = true := by
      refine List.all_eq_true.mpr ?_
      intro x hx
      exact (List.all_eq_true.mp hwf) x (List.mem_cons_of_mem sg hx)
    have hrestn : rest.all (noHole tid) = true := by
      refine List.all_eq_true.mpr ?_
      intro x hx
      exact (List.all_eq_true.mp hnh) x (List.mem_cons_of_mem sg hx)
    cases sg with
    | lit s =>
      have hfree : ∀ c ∈ s, c ≠ lb := charFree_iff.mp hsg
      have hpat : pat tid = lb :: (lb :: (tid ++ [rb, rb])) := rfl
      show occursIn (pat tid) (s ++ flattenSegs rest) = false
      rw [hpat, occursIn_skip s (flattenSegs rest) hfree, ← hpat]
      exact ih hrest hrestn
    | hole id =>
      have hide : id ≠ tid := by
        simp [noHole] at hsgn
        exact hsgn
      have hidl : ∀ c ∈ id, c ≠ lb := charFree_iff.mp (by
        simp [wfSeg, Bool.and_eq_true] at hsg
        exact hsg.1)
      have hidr : ∀ c ∈ id, c ≠ rb := charFree_iff.mp (by
        simp [wfSeg, Bool.and_eq_true] at hsg
        exact hsg.2)
      have hflat : flattenSegs (Seg.hole id :: rest) =
          lb :: lb :: (id ++ rb :: rb :: flattenSegs rest) := by
        simp [flattenSegs, flattenSeg]
      rw [hflat, occursIn_hole htid hidr hidl (fun h => hide h.symm) (flattenSegs rest)]
      exact ih hrest hrestn

lemma wf_map_pass (tid v : Str) (hv : charFree lb v = true) (segs : List Seg)
    (h : wfSegs segs = true) : wfSegs (segs.map (passSeg tid v)) = true := by
  refine List.all_eq_true.mpr ?_
  intro x hx
  rcases List.mem_map.mp hx with ⟨sg, hsg, rfl⟩
  have hw : wfSeg sg = true := (List.all_eq_true.mp h) sg hsg
  cases sg with
  | lit s => exact hw
  | hole id =>
    by_cases hide : id = tid
    · simp [passSeg, hide, wfSeg, hv]
    · simpa [passSeg, hide, wfSeg] using hw

lemma noHole_map_pass_self (tid v : Str) (segs : List Seg) :
    (segs.map (passSeg tid v)).all (noHole tid) = true := by
  refine List.all_eq_true.mpr ?_
  intro x hx
  rcases List.mem_map.mp hx with ⟨sg, _, rfl⟩
  cases sg with
  | lit s => rfl
  | hole id =>
    by_cases hide : id = tid
    · simp [passSeg, hide, noHole]
    · simp only [passSeg, if_neg hide, noHole, Bool.not_eq_true']
      rw [beq_eq_false_iff_ne]
      exact hide

lemma noHole_map_pass (tid t2 v : Str) (segs : List Seg)
    (h : segs.all (noHole tid) = true) :
    (segs.map (passSeg t2 v)).all (noHole tid) = true := by
  refine List.all_eq_true.mpr ?_
  intro x hx
  rcases List.mem_map.mp hx with ⟨sg, hsg, rfl⟩
  have hn : noHole tid sg = true := (List.all_eq_true.mp h) sg hsg
  cases sg with
  | lit s => rfl
  | hole id =>
    by_cases hide : id = t2
    · simp [passSeg, hide, noHole]
    · simpa [passSeg, hide, noHole] using hn

lemma charFree_jsOr {c : Char} {a b : Str} (ha : charFree c a = true)
    (hb : charFree c b = true) : charFree c (jsOr a b) = true := by
  unfold jsOr
  split
  · exact hb
  · exact ha

lemma replList_eq (pairs : List (Str × Str))
    (hpr : ∀ pv ∈ pairs, ∀ c ∈ pv.1, c ≠ rb)
    (hpv : ∀ pv ∈ pairs, charFree lb pv.2 = true)
    (hpd : ∀ pv ∈ pairs, charFree dollar pv.2 = true) :
    ∀ segs, wfSegs segs = true →
      replList pairs (flattenSegs segs) = flattenSegs (passList pairs segs) ∧
        wfSegs (passList pairs segs) = true := by
  induction pairs with
  | nil => intro segs hwf; exact ⟨rfl, hwf⟩
  | cons pv rest ih =>
    intro segs hwf
    obtain ⟨tid, v⟩ := pv
    have htid : ∀ c ∈ tid, c ≠ rb := hpr (tid, v) (List.mem_cons_self _ _)
    have hv : charFree lb v = true := hpv (tid, v) (List.mem_cons_self _ _)
    have hvd : charFree dollar v = true := hpd (tid, v) (List.mem_cons_self _ _)
    have hpr' : ∀ pv ∈ rest, ∀ c ∈ pv.1, c ≠ rb :=
      fun q hq => hpr q (List.mem_cons_of_mem _ hq)
    have hpv' : ∀ pv ∈ rest, charFree lb pv.2 = true :=
      fun q hq => hpv q (List.mem_cons_of_mem _ hq)
    have hpd' : ∀ pv ∈ rest, charFree dollar pv.2 = true :=
      fun q hq => hpd q (List.mem_cons_of_mem _ hq)
    have hwf' : wfSegs (segs.map (passSeg tid v)) = true := wf_map_pass tid v hv segs hwf
    have hstep := passSegs_eq htid v hvd segs hwf
    have hrec := ih hpr' hpv' hpd' (segs.map (passSeg tid v)) hwf'
    refine ⟨?_, hrec.2⟩
    show replList rest (replAll (pat tid) v (flattenSegs segs)) = _
    rw [hstep]
    exact hrec.1

lemma noHole_passList (tid : Str) (pairs : List (Str × Str)) :
    ∀ segs, segs.all (noHole tid) = true → (passList pairs segs).all (noHole tid) = true := by
  induction pairs with
  | nil => intro segs h; exact h
  | cons pv rest ih =>
    intro segs h
    obtain ⟨t2, v⟩ := pv
    exact ih _ (noHole_map_pass tid t2 v segs h)

lemma noHole_passList_mem (pairs : List (Str × Str)) :
    ∀ (tid v : Str), (tid, v) ∈ pairs →
      ∀ segs, (passList pairs segs).all (noHole tid) = true := by
  induction pairs with
  | nil => intro tid v h; exact absurd h (List.not_mem_nil _)
  | cons pv rest ih =>
    intro tid v h segs
    obtain ⟨t0, v0⟩ := pv
    rcases List.mem_cons.mp h with heq | hmem
    · injection heq with h1 h2
      subst h1
      show (passList rest (segs.map (passSeg tid v0))).all (noHole tid) = true
      exact noHole_passList tid rest _ (noHole_map_pass_self tid v0 segs)
    · exact ih tid v hmem (segs.map (passSeg t0 v0))

lemma jsOr_nil (v : Str) : jsOr v [] = v := by
  unfold jsOr
  split
  · rename_i h; rw [h]
  · rfl

/-- C4 (amended): personalizeContent substitutes, in order, every occurrence of
the six recognized placeholders name, keyword, address, website, email and
company; the name placeholder falls back to the Vietnamese salutation when the
name field is empty, and the company placeholder reuses the name field; the
other placeholders substitute the empty string when the field is missing;
the replacement value passes through the dollar-escape expansion of the JS
replace, so only a dollar-free value is inserted literally; unrecognized
placeholders are left verbatim.  For every template whose braces occur only
as well-formed placeholder tokens and every recipient whose fields hold no
opening brace and no dollar sign, the rendered output holds no remaining
occurrence of any recognized placeholder. -/
theorem c4_personalization_amended (r : Recipient) (segs : List Seg)
    (hwf : wfSegs segs = true)
    (hname : charFree lb r.name = true) (hkw : charFree lb r.keyword = true)
    (haddr : charFree lb r.address = true) (hweb : charFree lb r.website = true)
    (hmail : charFree lb r.primaryEmail = true)
    (hdname : charFree dollar r.name = true) (hdkw : charFree dollar r.keyword = true)
    (hdaddr : charFree dollar r.address = true)
    (hdweb : charFree dollar r.website = true)
    (hdmail : charFree dollar r.primaryEmail = true) :
    personalizeStr r (flattenSegs segs) = flattenSegs (substSegs r segs) ∧
      ∀ tid ∈ recognizedIds,
        occursIn (pat tid) (personalizeStr r (flattenSegs segs)) = false := by
  have hvBan : charFree lb viBan = true := by decide
  have hnil : charFree lb ([] : Str) = true := by decide
  have hdBan : charFree dollar viBan = true := by decide
  have hdnil : charFree dollar ([] : Str) = true := by decide
  have hpr : ∀ pv ∈ substPairs r, ∀ c ∈ pv.1, c ≠ rb := by
    intro pv hpv
    simp only [substPairs, List.mem_cons, List.not_mem_nil, or_false] at hpv
    rcases hpv with rfl | rfl | rfl | rfl | rfl | rfl
    · exact (by decide : ∀ c ∈ idName, c ≠ rb)
    · exact (by decide : ∀ c ∈ idKeyword, c ≠ rb)
    · exact (by decide : ∀ c ∈ idAddress, c ≠ rb)
    · exact (by decide : ∀ c ∈ idWebsite, c ≠ rb)
    · exact (by decide : ∀ c ∈ idEmail, c ≠ rb)
    · exact (by decide : ∀ c ∈ idCompany, c ≠ rb)
  have hpv : ∀ pv ∈ substPairs r, charFree lb pv.2 = true := by
    intro pv hpv
    simp only [substPairs, List.mem_cons, List.not_mem_nil, or_false] at hpv
    rcases hpv with rfl | rfl | rfl | rfl | rfl | rfl
    · exact charFree_jsOr hname hvBan
    · exact charFree_jsOr hkw hnil
    · exact charFree_jsOr haddr hnil
    · exact charFree_jsOr hweb hnil
    · exact charFree_jsOr hmail hnil
    · exact charFree_jsOr hname hnil
  have hpd : ∀ pv ∈ substPairs r, charFree dollar pv.2 = true := by
    intro pv hpv2
    simp only [substPairs, List.mem_cons, List.not_mem_nil, or_false] at hpv2
    rcases hpv2 with rfl | rfl | rfl | rfl | rfl | rfl
    · exact charFree_jsOr hdname hdBan
    · exact charFree_jsOr hdkw hdnil
    · exact charFree_jsOr hdaddr hdnil
    · exact charFree_jsOr hdweb hdnil
    · exact charFree_jsOr hdmail hdnil
    · exact charFree_jsOr hdname hdnil
  have hmain := replList_eq (substPairs r) hpr hpv hpd segs hwf
  refine ⟨hmain.1, ?_⟩
  intro tid htid
  have heq : personalizeStr r (flattenSegs segs) = flattenSegs (passList (substPairs r) segs) :=
    hmain.1
  rw [heq]
  have hrb : ∀ c ∈ tid, c ≠ rb := by
    simp only [recognizedIds, List.mem_cons, List.not_mem_nil, or_false] at htid
    rcases htid with rfl | rfl | rfl | rfl | rfl | rfl <;> decide
  have hmem : ∃ v, (tid, v) ∈ substPairs r := by
    simp only [recognizedIds, List.mem_cons, List.not_mem_nil, or_false] at htid
    rcases htid with rfl | rfl | rfl | rfl | rfl | rfl
    · exact ⟨jsOr r.name viBan, by simp [substPairs]⟩
    · exact ⟨jsOr r.keyword [], by simp [substPairs]⟩
    · exact ⟨jsOr r.address [], by simp [substPairs]⟩
    · exact ⟨jsOr r.website [], by simp [substPairs]⟩
    · exact ⟨jsOr r.primaryEmail [], by simp [substPairs]⟩
    · exact ⟨jsOr r.name [], by simp [substPairs]⟩
  obtain ⟨v, hv⟩ := hmem
  exact occursFree hrb _ hmain.2 (noHole_passList_mem (substPairs r) tid v hv segs)

/-- C4 counterexample: personalizeContent on a template that is exactly the
name placeholder, applied to a recipient whose name field is empty, renders
the Vietnamese salutation rather than the empty string the claim requires for
a missing recipient field. -/
theorem c4_counterexample :
    (personalizeContent c4template c4recipient).subject = viBan ∧ viBan ≠ ([] : Str) := by
  decide

/-- C4 witness: the amended personalization theorem instantiated on a concrete
template with an unrecognized placeholder and a concrete recipient. -/
theorem c4_witness :
    (wfSegs c4segsW = true ∧ charFree lb c4recipW.name = true ∧
        charFree dollar c4recipW.name = true) ∧
      personalizeStr c4recipW (flattenSegs c4segsW) = flattenSegs (substSegs c4recipW c4segsW) :=
  ⟨⟨by decide, by decide, by decide⟩,
    (c4_personalization_amended c4recipW c4segsW (by decide) (by decide) (by decide)
      (by decide) (by decide) (by decide) (by decide) (by decide) (by decide)
      (by decide) (by decide)).1⟩

/-- C10 (amended): every template built from a valid template row copies the
trimmed column B cell into both subject and content, so its content equals
its subject; only the fallback default template, returned when the sheet has
no valid rows, has a content different from its subject. -/
theorem c10_content_eq_subject_amended (rows : List (List Str)) (pick : Nat)
    (h : validRows rows ≠ []) :
    (getEmailTemplate rows pick).content = (getEmailTemplate rows pick).subject := by
  have hrows : rows.isEmpty = false := by
    cases rows with
    | nil => simp [validRows] at h
    | cons a l => rfl
  have hvr : (validRows rows).isEmpty = false := by
    cases hv : validRows rows with
    | nil => exact absurd hv h
    | cons a l => rfl
  simp [getEmailTemplate, hrows, hvr]

/-- C10 counterexample: when the template sheet is empty, getEmailTemplate
returns the fallback default template, whose content differs from its
subject, refuting the claim that every returned template has content equal to
subject. -/
theorem c10_counterexample :
    (getEmailTemplate [] 0).content ≠ (getEmailTemplate [] 0).subject := by
  decide

/-- C10 witness: the amended theorem instantiated on a concrete sheet with one
valid row. -/
theorem c10_witness :
    (validRows c10rowsW ≠ []) ∧
      (getEmailTemplate c10rowsW 0).content = (getEmailTemplate c10rowsW 0).subject :=
  ⟨by decide, c10_content_eq_subject_amended c10rowsW 0 (by decide)⟩

lemma runAttemptsAux_allfail (call : Nat → CallResult) (hf : ∀ a, callFails (call a) = true) :
    ∀ (rem : Nat), 1 ≤ rem → ∀ (attempt : Nat) (le : Option Str) (now : Nat),
      (runAttemptsAux call attempt rem le now).sentAttempt = none ∧
      (runAttemptsAux call attempt rem le now).lastError = errOf (call (attempt + rem - 1)) ∧
      (runAttemptsAux call attempt rem le now).callTimes.length = rem ∧
      (runAttemptsAux call attempt rem le now).backoffs =
        (List.range' attempt (rem - 1)).map (fun k => 2 ^ k * 1000) := by
  intro rem
  induction rem with
  | zero => intro h; exact absurd h (by omega)
  | succ r ih =>
    intro _ attempt le now
    have hfa := hf attempt
    cases hc : call attempt with
    | ret res =>
      have hsucc : res.success = false := by
        rw [hc] at hfa
        simpa [callFails] using hfa
      by_cases hr : r = 0
      · subst hr
        have harith : attempt + 1 - 1 = attempt := by omega
        simp [runAttemptsAux, hc, hsucc, errOf, harith]
      · have hr1 : 1 ≤ r := Nat.one_le_iff_ne_zero.mpr hr
        obtain ⟨e1, e2, e3, e4⟩ := ih hr1 (attempt + 1) res.error (now + 2 ^ attempt * 1000)
        have harith : attempt + 1 + r - 1 = attempt + (r + 1) - 1 := by omega
        rw [harith] at e2
        have hrange : List.range' attempt r =
            attempt :: List.range' (attempt + 1) (r - 1) := by
          have hr2 : r = (r - 1) + 1 := by omega
          conv_lhs => rw [hr2]
          rw [List.range'_succ]
        simp [runAttemptsAux, hc, hsucc, hr, e1, e2, e3, e4]
        rw [hrange]
        simp
    | exn m =>
      by_cases hr : r = 0
      · subst hr
        have harith : attempt + 1 - 1 = attempt := by omega
        simp [runAttemptsAux, hc, errOf, harith]
      · have hr1 : 1 ≤ r := Nat.one_le_iff_ne_zero.mpr hr
        obtain ⟨e1, e2, e3, e4⟩ := ih hr1 (attempt + 1) (some m) (now + 2 ^ attempt * 1000)
        have harith : attempt + 1 + r - 1 = attempt + (r + 1) - 1 := by omega
        rw [harith] at e2
        have hrange : List.range' attempt r =
            attempt :: List.range' (attempt + 1) (r - 1) := by
          have hr2 : r = (r - 1) + 1 := by omega
          conv_lhs => rw [hr2]
          rw [List.range'_succ]
        simp [runAttemptsAux, hc, hr, e1, e2, e3, e4]
        rw [hrange]
        simp

lemma sum_pow_range (n : Nat) :
    ((List.range' 1 n).map (fun k => 2 ^ k * 1000)).sum = (2 ^ (n + 1) - 2) * 1000 := by
  induction n with
  | zero => rfl
  | succ m ih =>
    have hc : List.range' 1 (m + 1) = List.range' 1 m ++ [1 + m] := by
      have h : List.range' 1 (m + 1) 1 = List.range' 1 m 1 ++ [1 + 1 * m] :=
        List.range'_concat 1 m
      simpa using h
    rw [hc, List.map_append, List.sum_append, ih]
    simp only [List.map_cons, List.map_nil, List.sum_cons, List.sum_nil]
    have h1 : (2:ℕ) ^ (m + 2) = 2 ^ (m + 1) + 2 ^ (m + 1) := by ring
    have h2 : (2:ℕ) ^ (1 + m) = 2 ^ (m + 1) := by rw [Nat.add_comm]
    have h3 : 1 ≤ (2:ℕ) ^ (m + 1) := Nat.one_le_two_pow
    rw [h2]
    omega

lemma runAttempts_fail_succ (call : Nat → CallResult) (now : Nat)
    (h1 : callFails (call 1) = true) (h2 : callFails (call 2) = false) :
    runAttempts call 3 now =
      { sentAttempt := some 2, messageId := midOf (call 2), lastError := errOf (call 1),
        callTimes := [now, now + 2000], backoffs := [2000], endTime := now + 2000 } := by
  cases hc2 : call 2 with
  | exn m =>
    rw [hc2] at h2
    simp [callFails] at h2
  | ret res2 =>
    have hs2 : res2.success = true := by
      rw [hc2] at h2
      simpa [callFails] using h2
    cases hc1 : call 1 with
    | ret res1 =>
      have hs1 : res1.success = false := by
        rw [hc1] at h1
        simpa [callFails] using h1
      simp [runAttempts, runAttemptsAux, hc1, hs1, hc2, hs2, errOf, midOf]
    | exn m1 =>
      simp [runAttempts, runAttemptsAux, hc1, hc2, hs2, errOf, midOf]

lemma mkDetail_recipientId (e : Email) (mr : Nat) (a : AttemptOut) :
    (mkDetail e mr a).recipientId = e.recipientId := by
  unfold mkDetail
  cases a.sentAttempt <;> rfl

lemma mkDetail_status (e : Email) (mr : Nat) (a : AttemptOut) :
    (mkDetail e mr a).status = strSent ∨ (mkDetail e mr a).status = strFailed := by
  unfold mkDetail
  cases a.sentAttempt
  · right; rfl
  · left; rfl

lemma sendRetry_shape (call : Nat → Nat → CallResult) (mg mr : Nat) :
    ∀ (emails : List Email) (idx n0 l0 : Nat),
      (sendEmailsWithRetry call mg mr idx n0 l0 emails).details.length = emails.length ∧
      (sendEmailsWithRetry call mg mr idx n0 l0 emails).sent +
          (sendEmailsWithRetry call mg mr idx n0 l0 emails).failed = emails.length ∧
      (sendEmailsWithRetry call mg mr idx n0 l0 emails).details.map (fun d => d.recipientId) =
          emails.map (fun e => e.recipientId) ∧
      (∀ d ∈ (sendEmailsWithRetry call mg mr idx n0 l0 emails).details,
          d.status = strSent ∨ d.status = strFailed) ∧
      (sendEmailsWithRetry call mg mr idx n0 l0 emails).sleeps.length = emails.length := by
  intro emails
  induction emails with
  | nil =>
    intro idx n0 l0
    simp [sendEmailsWithRetry]
  | cons e rest ih =>
    intro idx n0 l0
    obtain ⟨i1, i2, i3, i4, i5⟩ := ih (idx + 1)
      ((runAttempts (call idx) mr n0).endTime +
        (waitForRateLimit mg (runAttempts (call idx) mr n0).endTime l0).1)
      (waitForRateLimit mg (runAttempts (call idx) mr n0).endTime l0).2
    simp only [sendEmailsWithRetry]
    refine ⟨?_, ?_, ?_, ?_, ?_⟩
    · simp [i1]
    · by_cases hs : (runAttempts (call idx) mr n0).sentAttempt.isSome <;>
        · simp [hs]
          omega
    · simp [i3, mkDetail_recipientId]
    · intro d hd
      simp only [List.mem_cons] at hd
      rcases hd with rfl | hmem
      · exact mkDetail_status _ _ _
      · exact i4 d hmem
    · simp [i5]

/-- C3: for a recipient whose sends always fail, sendEmailsWithRetry records
exactly maxRetryAttempts transport attempts and one terminal failed entry
carrying the last error and the attempts count; a backoff of two to the
attempt number seconds follows every failed attempt except the last, so the
total backoff is the sum of those powers, which is two to the maximum minus
two seconds; for a recipient that fails once and then succeeds, the terminal
entry is sent with attempt two after exactly one backoff of two seconds. -/
theorem c3_retry_and_backoff :
    (∀ (call : Nat → Nat → CallResult) (e : Email) (mg idx n0 l0 mr : Nat),
        1 ≤ mr → (∀ a, callFails (call idx a) = true) →
        (sendEmailsWithRetry call mg mr idx n0 l0 [e]).details =
            [{ recipientId := e.recipientId, email := e.«to», status := strFailed,
               messageId := none, attempt := none, error := errOf (call idx mr),
               attempts := some mr }] ∧
          (sendEmailsWithRetry call mg mr idx n0 l0 [e]).callTimes.length = mr ∧
          (sendEmailsWithRetry call mg mr idx n0 l0 [e]).backoffs =
            (List.range' 1 (mr - 1)).map (fun k => 2 ^ k * 1000) ∧
          (sendEmailsWithRetry call mg mr idx n0 l0 [e]).backoffs.sum =
            (2 ^ mr - 2) * 1000) ∧
    (∀ (call : Nat → Nat → CallResult) (e : Email) (mg idx n0 l0 : Nat),
        callFails (call idx 1) = true → callFails (call idx 2) = false →
        (sendEmailsWithRetry call mg 3 idx n0 l0 [e]).details =
            [{ recipientId := e.recipientId, email := e.«to», status := strSent,
               messageId := midOf (call idx 2), attempt := some 2, error := none,
               attempts := none }] ∧
          (sendEmailsWithRetry call mg 3 idx n0 l0 [e]).backoffs = [2000]) := by
  constructor
  · intro call e mg idx n0 l0 mr hmr hf
    obtain ⟨h1, h2, h3, h4⟩ := runAttemptsAux_allfail (call idx) hf mr hmr 1 none n0
    have harith : 1 + mr - 1 = mr := by omega
    rw [harith] at h2
    have hsum := sum_pow_range (mr - 1)
    have hmr1 : mr - 1 + 1 = mr := by omega
    rw [hmr1] at hsum
    refine ⟨?_, ?_, ?_, ?_⟩
    · simp [sendEmailsWithRetry, runAttempts, mkDetail, h1, h2]
    · simp [sendEmailsWithRetry, runAttempts, h3]
    · simp [sendEmailsWithRetry, runAttempts, h4]
    · simp [sendEmailsWithRetry, runAttempts, h4, hsum]
  · intro call e mg idx n0 l0 hf1 hf2
    have hfs := runAttempts_fail_succ (call idx) n0 hf1 hf2
    constructor
    · simp [sendEmailsWithRetry, hfs, mkDetail]
    · simp [sendEmailsWithRetry, hfs]

/-- C3 witness: the retry theorem instantiated on an always-throwing stub and
on a fail-once-then-succeed stub. -/
theorem c3_witness :
    (sendEmailsWithRetry c3failCall 1000 3 0 0 0 [c3email]).backoffs.sum =
        (2 ^ 3 - 2) * 1000 ∧
      (sendEmailsWithRetry c3flakyCall 1000 3 0 0 0 [c3email]).backoffs = [2000] :=
  ⟨(c3_retry_and_backoff.1 c3failCall c3email 1000 0 0 0 3 (by decide)
      (fun a => rfl)).2.2.2,
   (c3_retry_and_backoff.2 c3flakyCall c3email 1000 0 0 0 (by decide) (by decide)).2⟩

/-- C8: every run of the send loop yields exactly one details entry per
prepared email, in order, with a single terminal status that is sent or
failed, and the sent and failed counters add up to the number of prepared
emails; on the pipeline level a normal completion over a non-empty unsent
list resolves with a total equal to the unsent-list length, details in
store order keyed by rowIndex, and sent plus failed equal to that total. -/
theorem c8_one_status_per_recipient :
    (∀ (call : Nat → Nat → CallResult) (mg mr idx n0 l0 : Nat) (emails : List Email),
        (sendEmailsWithRetry call mg mr idx n0 l0 emails).details.length = emails.length ∧
        (sendEmailsWithRetry call mg mr idx n0 l0 emails).sent +
            (sendEmailsWithRetry call mg mr idx n0 l0 emails).failed = emails.length ∧
        (sendEmailsWithRetry call mg mr idx n0 l0 emails).details.map
            (fun d => d.recipientId) = emails.map (fun e => e.recipientId) ∧
        (∀ d ∈ (sendEmailsWithRetry call mg mr idx n0 l0 emails).details,
            d.status = strSent ∨ d.status = strFailed)) ∧
    strSent ≠ strFailed ∧
    (∀ (sr : List Recipient) (tr : List (List Str)) (pk : Nat)
        (call : Nat → Nat → CallResult) (mg n0 l0 : Nat),
        getUnprocessedRecipients sr ≠ [] →
        (getEmailTemplate tr pk).subject ≠ [] →
        (getEmailTemplate tr pk).content ≠ [] →
        okTotal (processEmails false sr tr pk call mg n0 l0).result =
            some (some (getUnprocessedRecipients sr).length) ∧
          (processEmails false sr tr pk call mg n0 l0).trace.details.map
              (fun d => d.recipientId) =
            (getUnprocessedRecipients sr).map (fun r => r.rowIndex) ∧
          (processEmails false sr tr pk call mg n0 l0).trace.sent +
              (processEmails false sr tr pk call mg n0 l0).trace.failed =
            (getUnprocessedRecipients sr).length) := by
  refine ⟨?_, by decide, ?_⟩
  · intro call mg mr idx n0 l0 emails
    obtain ⟨s1, s2, s3, s4, _⟩ := sendRetry_shape call mg mr emails idx n0 l0
    exact ⟨s1, s2, s3, s4⟩
  · intro sr tr pk call mg n0 l0 hne hsub hcont
    have hne' : (getUnprocessedRecipients sr).isEmpty = false := by
      cases hh : getUnprocessedRecipients sr with
      | nil => exact absurd hh hne
      | cons a l => rfl
    have hsub' : (getEmailTemplate tr pk).subject.isEmpty = false := by
      cases hh : (getEmailTemplate tr pk).subject with
      | nil => exact absurd hh hsub
      | cons a l => rfl
    have hcont' : (getEmailTemplate tr pk).content.isEmpty = false := by
      cases hh : (getEmailTemplate tr pk).content with
      | nil => exact absurd hh hcont
      | cons a l => rfl
    have htr : (processEmails false sr tr pk call mg n0 l0).trace =
        sendEmailsWithRetry call mg 3 0 n0 l0
          (prepareEmailBatch (getUnprocessedRecipients sr) (getEmailTemplate tr pk)) := by
      simp [processEmails, hne', hsub', hcont']
    have hlen : (prepareEmailBatch (getUnprocessedRecipients sr)
        (getEmailTemplate tr pk)).length = (getUnprocessedRecipients sr).length := by
      simp [prepareEmailBatch]
    have hmap : (prepareEmailBatch (getUnprocessedRecipients sr)
          (getEmailTemplate tr pk)).map (fun e => e.recipientId) =
        (getUnprocessedRecipients sr).map (fun r => r.rowIndex) := by
      simp [prepareEmailBatch, List.map_map]
    obtain ⟨s1, s2, s3, s4, _⟩ := sendRetry_shape call mg 3
      (prepareEmailBatch (getUnprocessedRecipients sr) (getEmailTemplate tr pk)) 0 n0 l0
    refine ⟨?_, ?_, ?_⟩
    · simp [processEmails, okTotal, hne', hsub', hcont', hlen]
    · rw [htr, s3, hmap]
    · rw [htr, s2, hlen]

/-- C8 witness: the pipeline-level invariants instantiated on a concrete store
with one unsent recipient, a valid template sheet and a succeeding transport. -/
theorem c8_witness :
    (getUnprocessedRecipients [c1recipient] ≠ [] ∧
        (getEmailTemplate c10rowsW 0).subject ≠ [] ∧
        (getEmailTemplate c10rowsW 0).content ≠ []) ∧
      (processEmails false [c1recipient] c10rowsW 0 c1okCall 1000 0 0).trace.details.map
          (fun d => d.recipientId) =
        (getUnprocessedRecipients [c1recipient]).map (fun r => r.rowIndex) :=
  ⟨⟨by decide, by decide, by decide⟩,
   (c8_one_status_per_recipient.2.2 [c1recipient] c10rowsW 0 c1okCall 1000 0 0
      (by decide) (by decide) (by decide)).2.1⟩

/-- C9: waitForRateLimit records the last send time and sleeps exactly the
remaining portion of the minimum gap when the elapsed time is shorter, and
nothing otherwise, after which the recorded time equals the wake-up time; in
the send loop the rate-limit wait runs exactly once after every recipient,
whatever the send outcome was. -/
theorem c9_rate_limiting :
    (∀ mg now last : Nat, last ≤ now → now - last < mg →
        waitForRateLimit mg now last = (mg - (now - last), last + mg)) ∧
    (∀ mg now last : Nat, mg ≤ now - last → waitForRateLimit mg now last = (0, now)) ∧
    (∀ (call : Nat → Nat → CallResult) (mg mr idx n0 l0 : Nat) (emails : List Email),
        (sendEmailsWithRetry call mg mr idx n0 l0 emails).sleeps.length = emails.length) := by
  refine ⟨?_, ?_, ?_⟩
  · intro mg now last hle hlt
    simp only [waitForRateLimit]
    rw [if_pos hlt]
    have h2 : now + (mg - (now - last)) = last + mg := by omega
    rw [h2]
  · intro mg now last hge
    have h : ¬(now - last < mg) := by omega
    simp only [waitForRateLimit]
    rw [if_neg h]
  · intro call mg mr idx n0 l0 emails
    exact (sendRetry_shape call mg mr emails idx n0 l0).2.2.2.2

/-- C9 witness: the limiter instantiated at a concrete clock, and one
rate-limit sleep recorded for the one email of a concrete run. -/
theorem c9_witness :
    ((0 ≤ 300 ∧ 300 - 0 < 1000) ∧
        waitForRateLimit 1000 300 0 = (1000 - (300 - 0), 0 + 1000)) ∧
      (sendEmailsWithRetry c1okCall 1000 3 0 0 0 [c3email]).sleeps.length = 1 :=
  ⟨⟨⟨by decide, by decide⟩, c9_rate_limiting.1 1000 300 0 (by decide) (by decide)⟩,
   by
     have h := c9_rate_limiting.2.2 c1okCall 1000 3 0 0 0 [c3email]
     simpa using h⟩

/-- C2: a processEmails call made while the processing flag is set rejects
with the concurrent-run error, performs no transport call, and leaves the
flag of the owning run in place; a call that enters the run holds the flag
while the body executes and the finally block clears it on every exit path,
the throwing ones included. -/
theorem c2_single_flight :
    (∀ (sr : List Recipient) (tr : List (List Str)) (pk : Nat)
        (call : Nat → Nat → CallResult) (mg n0 l0 : Nat),
        (processEmails true sr tr pk call mg n0 l0).result = .error errInProgress ∧
        (processEmails true sr tr pk call mg n0 l0).trace.callTimes = [] ∧
        (processEmails true sr tr pk call mg n0 l0).processingAfter = true) ∧
    (∀ (sr : List Recipient) (tr : List (List Str)) (pk : Nat)
        (call : Nat → Nat → CallResult) (mg n0 l0 : Nat),
        (processEmails false sr tr pk call mg n0 l0).processingDuring = true ∧
        (processEmails false sr tr pk call mg n0 l0).processingAfter = false) := by
  constructor
  · intro sr tr pk call mg n0 l0
    exact ⟨rfl, rfl, rfl⟩
  · intro sr tr pk call mg n0 l0
    unfold processEmails
    by_cases h1 : (getUnprocessedRecipients sr).isEmpty = true
    · simp [h1]
    · by_cases h2 : ((getEmailTemplate tr pk).subject.isEmpty ||
          (getEmailTemplate tr pk).content.isEmpty) = true
      · simp [h1, h2]
      · simp [h1, h2]

/-- C5 (amended): when the unsent-recipient list is empty, processEmails
resolves with zero sent, zero failed and the informational message, omits the
total field, and performs no transport call. -/
theorem c5_empty_run_amended (sr : List Recipient) (tr : List (List Str)) (pk : Nat)
    (call : Nat → Nat → CallResult) (mg n0 l0 : Nat)
    (h : getUnprocessedRecipients sr = []) :
    (processEmails false sr tr pk call mg n0 l0).result =
        .ok { sent := 0, failed := 0, total := none, message := some msgNoEmails,
              details := [] } ∧
      (processEmails false sr tr pk call mg n0 l0).trace.callTimes = [] := by
  constructor <;> simp [processEmails, h, emptyRun]

/-- C5 counterexample: the empty-recipient run resolves with an object whose
total field is absent, refuting the claim that it returns a total of zero. -/
theorem c5_counterexample :
    okTotal (processEmails false [] [] 0 (fun _ _ => CallResult.exn []) 1000 0 0).result =
        some none ∧
      (some (none : Option Nat) ≠ some (some 0)) := by
  decide

/-- C5 witness: the amended theorem instantiated on the empty store. -/
theorem c5_witness :
    (getUnprocessedRecipients ([] : List Recipient) = []) ∧
      (processEmails false [] [] 0 (fun _ _ => CallResult.exn []) 1000 0 0).result =
        .ok { sent := 0, failed := 0, total := none, message := some msgNoEmails,
              details := [] } :=
  ⟨rfl, (c5_empty_run_amended [] [] 0 (fun _ _ => CallResult.exn []) 1000 0 0 rfl).1⟩

/-- C1 (amended): when the template returned by the store has an empty subject
or content, a processEmails call that reaches the template-fetch step rejects
with the invalid-template error and performs no transport call; but a
template sheet with no valid rows does not produce such a template: the store
falls back to a built-in default with non-empty subject and content, so the
run proceeds. -/
theorem c1_configuration_gate_amended :
    (∀ (sr : List Recipient) (tr : List (List Str)) (pk : Nat)
        (call : Nat → Nat → CallResult) (mg n0 l0 : Nat),
        getUnprocessedRecipients sr ≠ [] →
        ((getEmailTemplate tr pk).subject = [] ∨ (getEmailTemplate tr pk).content = []) →
        (processEmails false sr tr pk call mg n0 l0).result = .error errInvalidTemplate ∧
          (processEmails false sr tr pk call mg n0 l0).trace.callTimes = []) ∧
    (∀ (rows : List (List Str)) (pk : Nat),
        validRows rows = [] → getEmailTemplate rows pk = defaultTemplate) ∧
    defaultTemplate.subject ≠ [] ∧ defaultTemplate.content ≠ [] := by
  refine ⟨?_, ?_, by decide, by decide⟩
  · intro sr tr pk call mg n0 l0 hne hbad
    have hne' : (getUnprocessedRecipients sr).isEmpty = false := by
      cases hh : getUnprocessedRecipients sr with
      | nil => exact absurd hh hne
      | cons a l => rfl
    have hbad' : ((getEmailTemplate tr pk).subject.isEmpty ||
        (getEmailTemplate tr pk).content.isEmpty) = true := by
      rcases hbad with h | h <;> simp [h]
    constructor <;> simp [processEmails, hne', hbad', emptyRun]
  · intro rows pk h
    unfold getEmailTemplate
    by_cases hr : rows.isEmpty = true
    · rw [if_pos hr]
    · rw [if_neg hr]
      have hv : (validRows rows).isEmpty = true := by rw [h]; rfl
      simp [hv]

/-- C1 counterexample: with one unsent recipient and a template sheet holding
no valid rows at all, processEmails resolves normally and passes one message
to the transport, refuting the claim that such a run throws a configuration
error and never calls send. -/
theorem c1_counterexample :
    exceptOk (processEmails false [c1recipient] [] 0 c1okCall 1000 0 0).result = true ∧
      (processEmails false [c1recipient] [] 0 c1okCall 1000 0 0).trace.callTimes.length = 1 := by
  decide

/-- C1 witness: a whitespace-only subject cell passes the row filter but trims
to an empty subject, and the run rejects with the invalid-template error. -/
theorem c1_witness :
    (getUnprocessedRecipients [c1recipient] ≠ [] ∧
        (getEmailTemplate c1wsRows 0).subject = []) ∧
      (processEmails false [c1recipient] c1wsRows 0 c1okCall 1000 0 0).result =
          .error errInvalidTemplate ∧
        validRows ([] : List (List Str)) = [] ∧
        getEmailTemplate ([] : List (List Str)) 0 = defaultTemplate :=
  ⟨⟨by decide, by decide⟩,
   ⟨(c1_configuration_gate_amended.1 [c1recipient] c1wsRows 0 c1okCall 1000 0 0
       (by decide) (Or.inl (by decide))).1,
    rfl, c1_configuration_gate_amended.2.1 [] 0 rfl⟩⟩

/-- C6: sendEmail never rejects: every call resolves with a result object; an
ordinary delivery failure resolves with success false and the error message;
even the not-authenticated programmer error is caught by the surrounding
try/catch and comes back as a failure object, so the only-throws-for-config-
errors clause holds with no throw at all; a successful delivery resolves with
success true and the provider message id. -/
theorem c6_transport_no_throw :
    (∀ (authenticated hasTransporter : Bool) (deliver : Except Str MailInfo),
        exceptOk (sendEmailAsCall authenticated hasTransporter deliver) = true) ∧
    (∀ e : Str, sendEmail true true (.error e) =
        { success := false, messageId := none, response := none, error := some e }) ∧
    (∀ (hasTransporter : Bool) (deliver : Except Str MailInfo),
        sendEmail false hasTransporter deliver =
          { success := false, messageId := none, response := none,
            error := some errNotAuth }) ∧
    (∀ info : MailInfo, sendEmail true true (.ok info) =
        { success := true, messageId := some info.messageId,
          response := some info.response, error := none }) := by
  refine ⟨?_, ?_, ?_, ?_⟩
  · intro a h d
    cases a <;> cases h <;> cases d <;> rfl
  · intro e
    rfl
  · intro h d
    cases d <;> rfl
  · intro info
    rfl

lemma cronStart_inv (now n : Nat) {s : CronState}
    (h : s.active = true ↔ s.currentJob.isSome = true) :
    ((cronStart now n s).1.active = true ↔ (cronStart now n s).1.currentJob.isSome = true) := by
  unfold cronStart
  by_cases ha : s.active = true
  · rw [if_pos ha]
    exact h
  · rw [if_neg ha]
    simp

lemma cronStop_inv {s : CronState}
    (h : s.active = true ↔ s.currentJob.isSome = true) :
    ((cronStop s).1.active = true ↔ (cronStop s).1.currentJob.isSome = true) := by
  unfold cronStop
  by_cases hc : (!s.active || s.currentJob.isNone) = true
  · rw [if_pos hc]
    exact h
  · rw [if_neg hc]
    simp

lemma cron_inv {s : CronState} (h : CronReach s) :
    s.active = true ↔ s.currentJob.isSome = true := by
  induction h with
  | init => simp [cronInit]
  | start now n hs ih => exact cronStart_inv now n ih
  | stop hs ih => exact cronStop_inv ih
  | @upd now n s hs ih =>
    unfold cronUpdateInterval
    by_cases ha : s.active = true
    · have hcond : ¬((!s.active) = true) := by simp [ha]
      rw [if_neg hcond]
      exact cronStart_inv now n (cronStop_inv ih)
    · have hf : s.active = false := by
        revert ha
        cases s.active <;> simp
      have hcond : (!s.active) = true := by rw [hf]; rfl
      rw [if_pos hcond]
      exact ih

/-- C7: on every reachable scheduler state, start on an inactive scheduler
returns true, activates it and records the interval; a second start without a
stop returns false and leaves the interval unchanged; stop on an active
scheduler returns true and deactivates it; stop on an inactive scheduler
returns false. -/
theorem c7_scheduler_state_machine (s : CronState) (n m now1 now2 : Nat)
    (hs : CronReach s) :
    (s.active = false →
      ((cronStart now1 n s).2 = true ∧ (cronStart now1 n s).1.active = true ∧
        (cronStart now1 n s).1.interval = n) ∧
      ((cronStart now2 m (cronStart now1 n s).1).2 = false ∧
        (cronStart now2 m (cronStart now1 n s).1).1.interval = n) ∧
      ((cronStop (cronStart now1 n s).1).2 = true ∧
        (cronStop (cronStart now1 n s).1).1.active = false) ∧
      (cronStop (cronStop (cronStart now1 n s).1).1).2 = false) ∧
    (s.active = true → (cronStop s).2 = true ∧ (cronStop s).1.active = false) ∧
    (s.active = false → (cronStop s).2 = false) := by
  refine ⟨?_, ?_, ?_⟩
  · intro hin
    have hstart : cronStart now1 n s =
        ({ active := true, interval := n, currentJob := some (),
           nextRunTime := some (now1 + n * 60 * 1000) }, true) := by
      unfold cronStart
      rw [if_neg (by simp [hin])]
    rw [hstart]
    exact ⟨⟨rfl, rfl, rfl⟩, ⟨rfl, rfl⟩, ⟨rfl, rfl⟩, rfl⟩
  · intro hact
    have hjob : s.currentJob.isSome = true := (cron_inv hs).mp hact
    have hnone : s.currentJob.isNone = false := by
      cases hc : s.currentJob with
      | none => rw [hc] at hjob; simp at hjob
      | some v => rfl
    have hcond : ¬((!s.active || s.currentJob.isNone) = true) := by
      simp [hact, hnone]
    unfold cronStop
    rw [if_neg hcond]
    exact ⟨rfl, rfl⟩
  · intro hin
    have hcond : (!s.active || s.currentJob.isNone) = true := by simp [hin]
    unfold cronStop
    rw [if_pos hcond]

/-- C7 witness: the state-machine theorem run from the constructor state with
the concrete intervals ten and five. -/
theorem c7_witness :
    (cronInit.active = false) ∧
      (((cronStart 0 10 cronInit).2 = true ∧ (cronStart 0 10 cronInit).1.active = true ∧
          (cronStart 0 10 cronInit).1.interval = 10) ∧
        ((cronStart 0 5 (cronStart 0 10 cronInit).1).2 = false ∧
          (cronStart 0 5 (cronStart 0 10 cronInit).1).1.interval = 10) ∧
        ((cronStop (cronStart 0 10 cronInit).1).2 = true ∧
          (cronStop (cronStart 0 10 cronInit).1).1.active = false) ∧
        (cronStop (cronStop (cronStart 0 10 cronInit).1).1).2 = false) :=
  ⟨by decide,
   (c7_scheduler_state_machine cronInit 10 5 0 0 CronReach.init).1 (by decide)⟩
